import Mathlib

/-!
Verification development for the dotgain staking-reward report tool.

The Rust sources are shallowly embedded:

* `src/time.rs` — flexible date/time parsing (`try_from_human`) and the
  companion formatter (`into_human`).  chrono's `parse_from_str` semantics
  for the three fixed format strings are modelled directly: numeric fields
  accept 1 to `w` digits (a signed year accepts a leading sign followed by
  an unbounded digit run), whitespace is skipped before every numeric field
  and at a literal space in the pattern, literal `-`/`:` characters must
  match exactly, the whole input must be consumed, and a seconds value of
  60 is accepted as a leap second.
* `src/price.rs` — the kline-response validation (`extract_price_from_payload`)
  and the minute-bucketed request start-time computation from
  `PriceClient::price`.
* `src/main.rs` — `filter_range`, `process`, `calculate_totals` and
  `write_output`, with the HTTP price client abstracted as an injected
  lookup function and the output file modelled as the list of lines that
  would be written.

Machine integers: the Rust code uses `i64` timestamps whose values in this
program stay far below 2^63, so they are embedded as `Int` with Rust's
truncating division written explicitly as `Int.tdiv`.
-/

namespace Dotgain

/-- Decidable equality for `Except`, used to evaluate the embedding on
concrete inputs. -/
instance {e a : Type} [DecidableEq e] [DecidableEq a] : DecidableEq (Except e a) :=
  fun x y =>
    match x, y with
    | .ok u, .ok v =>
      if h : u = v then isTrue (by rw [h]) else isFalse (by intro hc; cases hc; exact h rfl)
    | .error u, .error v =>
      if h : u = v then isTrue (by rw [h]) else isFalse (by intro hc; cases hc; exact h rfl)
    | .ok _, .error _ => isFalse (by intro hc; cases hc)
    | .error _, .ok _ => isFalse (by intro hc; cases hc)

/-! ## Character-level scanning primitives (model of chrono's scanner) -/

/-- Numeric value of an ASCII digit character, `none` otherwise. -/
def digit? (c : Char) : Option Nat :=
  if 48 ≤ c.toNat ∧ c.toNat ≤ 57 then some (c.toNat - 48) else none

/-- Whitespace test used by chrono when skipping space (ASCII whitespace
plus the common Unicode members NEL and NBSP; the remaining Unicode
whitespace code points never occur in this development). -/
def isWsp (c : Char) : Bool :=
  decide (c.toNat = 32 ∨ (9 ≤ c.toNat ∧ c.toNat ≤ 13) ∨ c.toNat = 133 ∨ c.toNat = 160)

/-- Drop leading whitespace (model of `str::trim_start`). -/
def trimL : List Char → List Char
  | [] => []
  | c :: cs => if isWsp c then trimL cs else c :: cs

/-- Greedy digit scanner: consume up to `fuel` leading digits, returning the
accumulated value, the number of digits consumed and the rest. -/
def scanCore : Nat → Nat → Nat → List Char → Nat × Nat × List Char
  | 0, acc, cnt, cs => (acc, cnt, cs)
  | _ + 1, acc, cnt, [] => (acc, cnt, [])
  | fuel + 1, acc, cnt, c :: cs =>
    match digit? c with
    | some k => scanCore fuel (acc * 10 + k) (cnt + 1) cs
    | none => (acc, cnt, c :: cs)

/-- chrono's `scan::number`: between 1 and `maxw` digits. -/
def scanNum (cs : List Char) (maxw : Nat) : Option (Nat × List Char) :=
  match scanCore maxw 0 0 cs with
  | (v, cnt, rest) => if cnt = 0 then none else some (v, rest)

/-- Unbounded digit run (used after an explicit year sign). -/
def scanNumAll (cs : List Char) : Option (Nat × List Char) :=
  scanNum cs cs.length

/-- Match one literal character. -/
def lit (c : Char) : List Char → Option (List Char)
  | x :: rest => if x = c then some rest else none
  | [] => none

/-! ## Calendar model -/

/-- Year bounds of chrono's `NaiveDate`. -/
def YEAR_MIN : Int := -262144

/-- Upper year bound of chrono's `NaiveDate`. -/
def YEAR_MAX : Int := 262143

/-- Proleptic Gregorian leap-year rule. -/
def isLeapYear (y : Int) : Bool :=
  y % 4 = 0 && (y % 100 ≠ 0 || y % 400 = 0)

/-- Number of days in a month of the proleptic Gregorian calendar. -/
def daysInMonth (y : Int) (m : Nat) : Nat :=
  if m = 2 then (if isLeapYear y then 29 else 28)
  else if m = 4 ∨ m = 6 ∨ m = 9 ∨ m = 11 then 30
  else 31

/-- A UTC calendar instant as produced by `try_from_human` (the model of
chrono's `DateTime<Utc>` with second precision).  A parsed seconds value of
60 is chrono's leap-second representation: it is stored as second 59 with
the `leap` flag set. -/
structure NaiveDT where
  year : Int
  month : Nat
  day : Nat
  hour : Nat
  minute : Nat
  second : Nat
  leap : Bool
  deriving DecidableEq

/-- Resolution of parsed fields into a date-time value, performing chrono's
range checks (month 1–12, day within the month, hour ≤ 23, minute ≤ 59,
second ≤ 60 with 60 meaning a leap second). -/
def mkDT (y : Int) (mo d h mi s : Nat) : Option NaiveDT :=
  if 1 ≤ mo ∧ mo ≤ 12 ∧ 1 ≤ d ∧ d ≤ daysInMonth y mo ∧ h ≤ 23 ∧ mi ≤ 59 ∧ s ≤ 60
      ∧ YEAR_MIN ≤ y ∧ y ≤ YEAR_MAX then
    some ⟨y, mo, d, h, mi, if s = 60 then 59 else s, s == 60⟩
  else none

/-! ## chrono parsing of the three accepted formats -/

/-- chrono's parse of `%Y`: whitespace is skipped, an optional sign is
followed by an unbounded digit run, an unsigned year reads at most four
digits. -/
def parseYear (cs0 : List Char) : Option (Int × List Char) :=
  match trimL cs0 with
  | [] => none
  | c :: rest =>
    if c = '-' then (scanNumAll rest).map (fun p => (-(p.1 : Int), p.2))
    else if c = '+' then (scanNumAll rest).map (fun p => ((p.1 : Int), p.2))
    else (scanNum (c :: rest) 4).map (fun p => ((p.1 : Int), p.2))

/-- chrono's parse of a two-digit numeric field (whitespace skipped, then
1–2 digits). -/
def num2 (cs : List Char) : Option (Nat × List Char) :=
  scanNum (trimL cs) 2

/-- chrono `NaiveDateTime::parse_from_str` with format `%Y-%m-%d %H:%M:%S`. -/
def chronoFmt1 (cs : List Char) : Option NaiveDT :=
  (parseYear cs).bind fun py =>
  (lit '-' py.2).bind fun cs1 =>
  (num2 cs1).bind fun pmo =>
  (lit '-' pmo.2).bind fun cs2 =>
  (num2 cs2).bind fun pd =>
  (num2 (trimL pd.2)).bind fun ph =>
  (lit ':' ph.2).bind fun cs3 =>
  (num2 cs3).bind fun pmi =>
  (lit ':' pmi.2).bind fun cs4 =>
  (num2 cs4).bind fun ps =>
  if ps.2 = [] then mkDT py.1 pmo.1 pd.1 ph.1 pmi.1 ps.1 else none

/-- chrono `NaiveDateTime::parse_from_str` with format `%Y-%m-%d %H:%M`
(seconds default to 0). -/
def chronoFmt2 (cs : List Char) : Option NaiveDT :=
  (parseYear cs).bind fun py =>
  (lit '-' py.2).bind fun cs1 =>
  (num2 cs1).bind fun pmo =>
  (lit '-' pmo.2).bind fun cs2 =>
  (num2 cs2).bind fun pd =>
  (num2 (trimL pd.2)).bind fun ph =>
  (lit ':' ph.2).bind fun cs3 =>
  (num2 cs3).bind fun pmi =>
  if pmi.2 = [] then mkDT py.1 pmo.1 pd.1 ph.1 pmi.1 0 else none

/-- chrono `NaiveDate::parse_from_str` with format `%Y-%m-%d`, followed by
`and_hms_opt(0, 0, 0)` (time defaults to 00:00:00). -/
def chronoFmt3 (cs : List Char) : Option NaiveDT :=
  (parseYear cs).bind fun py =>
  (lit '-' py.2).bind fun cs1 =>
  (num2 cs1).bind fun pmo =>
  (lit '-' pmo.2).bind fun cs2 =>
  (num2 cs2).bind fun pd =>
  if pd.2 = [] then mkDT py.1 pmo.1 pd.1 0 0 0 else none

/-- Embedding of `<DateTime<Utc> as TryFromHuman>::try_from_human`
(src/time.rs): the three formats are tried in order, the first match wins,
all inputs are interpreted as UTC, and any other string fails with the
`invalid date` error. -/
def try_from_human (s : String) : Except String NaiveDT :=
  match chronoFmt1 s.data with
  | some dt => .ok dt
  | none =>
  match chronoFmt2 s.data with
  | some dt => .ok dt
  | none =>
  match chronoFmt3 s.data with
  | some dt => .ok dt
  | none => .error ("invalid date: " ++ s)

/-! ## Rendering (the companion formatter) -/

/-- ASCII digit character of `k % 10`. -/
def digitChar10 (k : Nat) : Char := Char.ofNat (48 + k % 10)

/-- Little-endian digit characters, with explicit structural fuel so that
the definition reduces in the kernel. -/
def digitsLEAux : Nat → Nat → List Char
  | 0, _ => []
  | fuel + 1, n =>
    if n < 10 then [digitChar10 n]
    else digitChar10 (n % 10) :: digitsLEAux fuel (n / 10)

/-- Little-endian digit characters of a natural number. -/
def digitsLE (n : Nat) : List Char := digitsLEAux (n + 1) n

/-- Decimal digit string of a natural number, most significant digit first. -/
def natChars (n : Nat) : List Char := (digitsLE n).reverse

/-- Two-digit zero-padded rendering (`%m`, `%d`, `%H`, `%M`, `%S`). -/
def pad2 (n : Nat) : List Char := [digitChar10 (n / 10), digitChar10 n]

/-- Four-digit zero-padded rendering of a number below 10000. -/
def pad4core (n : Nat) : List Char :=
  [digitChar10 (n / 1000), digitChar10 (n / 100), digitChar10 (n / 10), digitChar10 n]

/-- chrono's `%Y` when formatting: zero-padded to four digits, full digit
string beyond 9999. -/
def pad4plus (n : Nat) : List Char :=
  if n ≤ 9999 then pad4core n else natChars n

/-- Year rendering including the sign of negative years. -/
def yearChars (y : Int) : List Char :=
  if y < 0 then '-' :: pad4plus y.natAbs else pad4plus y.toNat

/-- Embedding of `<NaiveDateTime as IntoHuman>::into_human` (src/time.rs):
format with `%Y-%m-%d %H:%M:%S`; a leap second is printed as second 60. -/
def into_human (dt : NaiveDT) : String :=
  String.mk (yearChars dt.year
    ++ '-' :: pad2 dt.month ++ '-' :: pad2 dt.day
    ++ ' ' :: pad2 dt.hour ++ ':' :: pad2 dt.minute
    ++ ':' :: pad2 (if dt.leap then 60 else dt.second))

/-- Defined from the spec's words (§4.1, §8): the canonical
`YYYY-MM-DD HH:MM:SS` rendering of an instant, all fields zero-padded.
Used to compare the source formatter against the spec's canonical form. -/
def canonical_render (t : NaiveDT) : String :=
  String.mk (pad4core t.year.toNat
    ++ '-' :: pad2 t.month ++ '-' :: pad2 t.day
    ++ ' ' :: pad2 t.hour ++ ':' :: pad2 t.minute ++ ':' :: pad2 t.second)

/-! ## Strict format membership (defined from the spec's words)

The spec describes the accepted formats as `YYYY-MM-DD HH:MM:SS`,
`YYYY-MM-DD HH:MM` and `YYYY-MM-DD`: fixed-width zero-padded decimal
fields, single literal separators, field values in range (seconds 00–59)
and a valid calendar date.  These definitions are the spec-side reference
used to test the code's parser against that reading. -/

/-- Exactly `w` leading digit characters. -/
def exactCore : Nat → Nat → List Char → Option (Nat × List Char)
  | 0, acc, cs => some (acc, cs)
  | w + 1, acc, c :: cs =>
    match digit? c with
    | some k => exactCore w (acc * 10 + k) cs
    | none => none
  | _ + 1, _, [] => none

/-- Fixed-width digit field of width `w`. -/
def exactNum (w : Nat) (cs : List Char) : Option (Nat × List Char) :=
  exactCore w 0 cs

/-- Validity of strict field values: calendar date valid, hour ≤ 23,
minute ≤ 59, second ≤ 59 (no leap second in the spec's format). -/
def strictMk (y : Int) (mo d h mi s : Nat) : Option NaiveDT :=
  if 1 ≤ mo ∧ mo ≤ 12 ∧ 1 ≤ d ∧ d ≤ daysInMonth y mo ∧ h ≤ 23 ∧ mi ≤ 59 ∧ s ≤ 59
      ∧ 0 ≤ y ∧ y ≤ 9999 then
    some ⟨y, mo, d, h, mi, s, false⟩
  else none

/-- Strict `YYYY-MM-DD HH:MM:SS`. -/
def sfmt1 (cs : List Char) : Option NaiveDT :=
  (exactNum 4 cs).bind fun py =>
  (lit '-' py.2).bind fun cs1 =>
  (exactNum 2 cs1).bind fun pmo =>
  (lit '-' pmo.2).bind fun cs2 =>
  (exactNum 2 cs2).bind fun pd =>
  (lit ' ' pd.2).bind fun cs3 =>
  (exactNum 2 cs3).bind fun ph =>
  (lit ':' ph.2).bind fun cs4 =>
  (exactNum 2 cs4).bind fun pmi =>
  (lit ':' pmi.2).bind fun cs5 =>
  (exactNum 2 cs5).bind fun ps =>
  if ps.2 = [] then strictMk (py.1 : Int) pmo.1 pd.1 ph.1 pmi.1 ps.1 else none

/-- Strict `YYYY-MM-DD HH:MM`. -/
def sfmt2 (cs : List Char) : Option NaiveDT :=
  (exactNum 4 cs).bind fun py =>
  (lit '-' py.2).bind fun cs1 =>
  (exactNum 2 cs1).bind fun pmo =>
  (lit '-' pmo.2).bind fun cs2 =>
  (exactNum 2 cs2).bind fun pd =>
  (lit ' ' pd.2).bind fun cs3 =>
  (exactNum 2 cs3).bind fun ph =>
  (lit ':' ph.2).bind fun cs4 =>
  (exactNum 2 cs4).bind fun pmi =>
  if pmi.2 = [] then strictMk (py.1 : Int) pmo.1 pd.1 ph.1 pmi.1 0 else none

/-- Strict `YYYY-MM-DD`. -/
def sfmt3 (cs : List Char) : Option NaiveDT :=
  (exactNum 4 cs).bind fun py =>
  (lit '-' py.2).bind fun cs1 =>
  (exactNum 2 cs1).bind fun pmo =>
  (lit '-' pmo.2).bind fun cs2 =>
  (exactNum 2 cs2).bind fun pd =>
  if pd.2 = [] then strictMk (py.1 : Int) pmo.1 pd.1 0 0 0 else none

/-- Membership of a string in one of the three spec formats (strict
fixed-width reading), together with the instant that string denotes. -/
def strict_format_match (s : String) : Option NaiveDT :=
  match sfmt1 s.data with
  | some t => some t
  | none =>
  match sfmt2 s.data with
  | some t => some t
  | none => sfmt3 s.data

/-! ## Unix timestamps and ordering -/

/-- Days since 1970-01-01 of a proleptic Gregorian calendar date
(Howard Hinnant's `days_from_civil`, the algorithm used by chrono's day
arithmetic). -/
def daysFromCivil (y : Int) (m d : Nat) : Int :=
  let y' := if m ≤ 2 then y - 1 else y
  let era := y'.fdiv 400
  let yoe := (y' - era * 400).toNat
  let mp := (m + 9) % 12
  let doy := (153 * mp + 2) / 5 + d - 1
  let doe := yoe * 365 + yoe / 4 - yoe / 100 + doy
  era * 146097 + (doe : Int) - 719468

/-- Embedding of chrono's `DateTime::timestamp`: Unix seconds, with a leap
second collapsed onto second 59 (the sub-second excess is dropped). -/
def NaiveDT.timestamp (dt : NaiveDT) : Int :=
  daysFromCivil dt.year dt.month dt.day * 86400
    + dt.hour * 3600 + dt.minute * 60 + dt.second

/-- Mixed-radix encoding of an instant; strictly monotone in the
lexicographic field order for in-range field values, so comparing keys is
chrono's `Ord` on `DateTime<Utc>` (chronological order). -/
def NaiveDT.key (dt : NaiveDT) : Int :=
  ((((dt.year * 16 + dt.month) * 32 + dt.day) * 32 + dt.hour) * 64 + dt.minute) * 128
    + dt.second * 2 + (if dt.leap then 1 else 0)

/-- chrono's `<` on `DateTime<Utc>`. -/
def NaiveDT.lt (a b : NaiveDT) : Bool := a.key < b.key

/-- chrono's `≤` on `DateTime<Utc>`. -/
def NaiveDT.le (a b : NaiveDT) : Bool := a.key ≤ b.key

/-- Modelled from the spec: `main.rs` imports
`dotgain::time::datetime_from_utc_string`, which is absent from the
provided sources (only `TryFromHuman for DateTime<Utc>` is present in
src/time.rs).  Per spec §4.1 the DateTimeParser used by the pipeline is
exactly the three-format UTC parse, i.e. `try_from_human`. -/
def datetime_from_utc_string (s : String) : Except String NaiveDT :=
  try_from_human s

end Dotgain





namespace Dotgain

/-! ## JSON values and the kline payload (src/price.rs) -/

/-- Model of `serde_json::Value` as far as `extract_price_from_payload`
inspects it: `int` is an integer-backed number (i64/u64), `float` an
f64-backed number (for which `as_i64` is `None`), and array/object
contents are irrelevant to the code's behaviour, so they carry no payload. -/
inductive Json where
  | int (n : Int)
  | float (q : ℚ)
  | str (s : String)
  | bool (b : Bool)
  | null
  | arr
  | obj
  deriving DecidableEq

/-- `serde_json::Value::as_i64`: integer-backed numbers within i64 range. -/
def jsonAsI64 : Json → Option Int
  | .int n => if -(2 ^ 63) ≤ n ∧ n < 2 ^ 63 then some n else none
  | _ => none

/-- `serde_json::Value::as_str`. -/
def jsonAsStr : Json → Option String
  | .str s => some s
  | _ => none

/-! ## Rust `f64::from_str` acceptance grammar -/

/-- ASCII lowercase conversion. -/
def lowerChar (c : Char) : Char :=
  if 65 ≤ c.toNat ∧ c.toNat ≤ 90 then Char.ofNat (c.toNat + 32) else c

/-- Strip one leading sign character. -/
def stripSign : List Char → List Char
  | '+' :: r => r
  | '-' :: r => r
  | cs => cs

/-- Case-insensitive `inf`, `infinity`, `nan`. -/
def isSpecialF64 (cs : List Char) : Bool :=
  let l := cs.map lowerChar
  decide (l = "inf".data) || decide (l = "infinity".data) || decide (l = "nan".data)

/-- Digit-character test as a Bool. -/
def isDigitChar (c : Char) : Bool := (digit? c).isSome

/-- Exponent suffix: empty, or `e`/`E` followed by an optional sign and a
nonempty digit run consuming the rest of the input. -/
def expOk : List Char → Bool
  | [] => true
  | c :: r =>
    (decide (c = 'e') || decide (c = 'E'))
      && (let ds := stripSign r
          !ds.isEmpty && ds.all isDigitChar)

/-- The (unsigned) `Number` production of Rust's float grammar:
`Count '.'? Exp?` or `Count? '.' Count Exp?`. -/
def isF64Number (cs : List Char) : Bool :=
  let p := cs.span isDigitChar
  match p.2 with
  | '.' :: r2 =>
    let q := r2.span isDigitChar
    (!p.1.isEmpty || !q.1.isEmpty) && expOk q.2
  | _ => !p.1.isEmpty && expOk p.2

/-- Acceptance of `str::parse::<f64>` (src/price.rs line 130): optional
sign, then a special value or a `Number`.  This is what the code's
"is a numeric string" check amounts to. -/
def isF64String (s : String) : Bool :=
  let cs := stripSign s.data
  isSpecialF64 cs || isF64Number cs

/-- Natural-number value of a digit run. -/
def natOfDigits (ds : List Char) : Nat :=
  ds.foldl (fun a c => a * 10 + (digit? c).getD 0) 0

/-- Exact rational value denoted by a plain (non-special) numeric string:
the mathematical value of the decimal literal, before any binary rounding.
Built with `mkRat` over integer arithmetic so that it evaluates in the
kernel. -/
def ratOfNumStr (s : String) : Option ℚ :=
  let cs0 := s.data
  let sign : Int := if cs0.head? = some '-' then -1 else 1
  let cs := stripSign cs0
  let p := cs.span isDigitChar
  let ip := p.1
  let p2 := match p.2 with
    | '.' :: r => r.span isDigitChar
    | _ => ([], p.2)
  let fp := p2.1
  let expv : Option Int := match p2.2 with
    | [] => some 0
    | c :: r =>
      if c = 'e' ∨ c = 'E' then
        let esign : Int := if r.head? = some '-' then -1 else 1
        let ds := stripSign r
        if ds ≠ [] ∧ ds.all isDigitChar then some (esign * natOfDigits ds) else none
      else none
  match expv with
  | none => none
  | some e =>
    if ip = [] ∧ fp = [] then none
    else
      let num : Int := sign * (natOfDigits ip * 10 ^ fp.length + natOfDigits fp)
      let den : Nat := 10 ^ fp.length
      some (if 0 ≤ e then mkRat (num * 10 ^ e.toNat) den else mkRat num (den * 10 ^ (-e).toNat))

/-- The finite values exactly representable in IEEE-754 binary64 (`f64`):
`m * 2^e` with a 53-bit significand.  The close price the code returns
lives in this set; the spec's "exact base-10 decimal" does not. -/
def Float64Representable (q : ℚ) : Prop :=
  ∃ m e : Int, m.natAbs < 2 ^ 53 ∧ -1074 ≤ e ∧ e ≤ 971 ∧ q = (m : ℚ) * (2 : ℚ) ^ e

/-! ## Kline extraction (src/price.rs) -/

/-- Field count of a kline record. -/
def KLINE_FIELDS_NUM : Nat := 12

/-- Embedding of `extract_price_from_payload` (src/price.rs lines 84–133).
The checks and their order mirror the source; error messages are
abbreviated tags (the source embeds request diagnostics, which no claim
depends on).  On success the source converts the validated close-price
string to `f64` and returns it; since Lean has no primitive binary float
here, the embedding returns the validated string itself, whose acceptance
test `isF64String` is exactly the condition under which the source's
conversion succeeds (the binary value is modelled by
`Float64Representable`). -/
def extract_price_from_payload (payload : List (List Json)) (start_time_ms : Int) :
    Except String String :=
  if payload.isEmpty then
    .error "response must contain at least one price (kline) entry"
  else
    let entry := payload.headD []
    if entry.length ≠ KLINE_FIELDS_NUM then
      .error "price (kline) entry contains a wrong number of fields"
    else
      match jsonAsI64 (entry.getD 0 .null) with
      | none => .error "timestamp entry is not a number"
      | some returned_time_ms =>
        if returned_time_ms ≠ start_time_ms then
          .error "returned timestamp doesn't match requested timestamp"
        else
          match jsonAsStr (entry.getD 4 .null) with
          | none => .error "price entry is not a string"
          | some price_str =>
            if isF64String price_str then .ok price_str
            else .error "cannot convert price entry to number"

/-- Embedding of the request start-time computation in `PriceClient::price`
(src/price.rs lines 26–36): `time_ms = datetime.timestamp() * 1000`, then
Rust's truncating `i64` division `time_ms / 60000 * 60000`. -/
def price_start_time_ms (datetime : NaiveDT) : Int :=
  Int.tdiv (datetime.timestamp * 1000) 60000 * 60000

end Dotgain

namespace Dotgain

/-! ## Decimal model (rust_decimal as used by src/main.rs)

`rust_decimal::Decimal` is a scaled integer `m * 10^(-s)`.  Addition and
multiplication are embedded exactly (they are exact in rust_decimal
whenever, as everywhere in this pipeline's claims, the 96-bit/28-digit
capacity is not exceeded). -/

/-- A decimal number `m / 10^s`. -/
structure Decimal where
  m : Int
  s : Nat
  deriving DecidableEq

/-- Rational value of a decimal. -/
def Decimal.toRat (d : Decimal) : ℚ := (d.m : ℚ) / 10 ^ d.s

/-- `Decimal::ZERO`. -/
def Decimal.zero : Decimal := ⟨0, 0⟩

/-- `Decimal::is_zero`: zero mantissa (the scale is irrelevant). -/
def Decimal.isZero (d : Decimal) : Bool := d.m == 0

/-- Exact addition: rescale to the larger scale and add mantissas. -/
def Decimal.add (a b : Decimal) : Decimal :=
  let s := max a.s b.s
  ⟨a.m * 10 ^ (s - a.s) + b.m * 10 ^ (s - b.s), s⟩

/-- Exact multiplication: multiply mantissas, add scales. -/
def Decimal.mul (a b : Decimal) : Decimal := ⟨a.m * b.m, a.s + b.s⟩

/-- Search for the smallest scale at which the quotient `num / den` is an
exact decimal. -/
def divSearch (num den : Int) : Nat → Nat → Decimal
  | _, 0 => ⟨num * 10 ^ 28 / den, 28⟩
  | s, fuel + 1 =>
    if num * 10 ^ s % den = 0 then ⟨num * 10 ^ s / den, s⟩
    else divSearch num den (s + 1) fuel

/-- Model of rust_decimal division: the exact quotient
`(a.m * 10^b.s) / (b.m * 10^a.s)` at the smallest sufficient scale when it
is representable with scale ≤ 28, otherwise the quotient cut off at scale
28 (an approximation of rust_decimal's behaviour at its precision limit, on
which no theorem below depends).  Division by zero is guarded by the caller
in `calculate_totals`; it is mapped to zero here. -/
def Decimal.div (a b : Decimal) : Decimal :=
  if b.m = 0 then Decimal.zero
  else divSearch (a.m * 10 ^ b.s) (b.m * 10 ^ a.s) 0 29

/-- `Decimal::normalize`: strip trailing zeros from the mantissa, lowering
the scale. -/
def normCore : Int → Nat → Decimal
  | m, 0 => ⟨m, 0⟩
  | m, s + 1 => if m % 10 = 0 then normCore (m / 10) s else ⟨m, s + 1⟩

/-- Normalized form of a decimal (no unnecessary trailing zeros). -/
def Decimal.normalize (d : Decimal) : Decimal := normCore d.m d.s

/-- `Decimal::scale`: the number of fractional digits. -/
def Decimal.scale (d : Decimal) : Nat := d.s

/-- `Decimal::round_dp`: round to `dp` fractional digits with rust_decimal's
default midpoint strategy (banker's rounding); a no-op when the scale is
already at most `dp`. -/
def Decimal.round_dp (d : Decimal) (dp : Nat) : Decimal :=
  if d.s ≤ dp then d
  else
    let k : Nat := 10 ^ (d.s - dp)
    let n := d.m.natAbs
    let q := n / k
    let r := n % k
    let q' := if r * 2 > k then q + 1
      else if r * 2 = k then (if q % 2 = 1 then q + 1 else q)
      else q
    ⟨if d.m < 0 then -(q' : Int) else (q' : Int), dp⟩

/-- Sign prefix of a mantissa. -/
def intSign (m : Int) : List Char := if m < 0 then ['-'] else []

/-- `Display for Decimal`: the mantissa with a decimal point inserted
`s` digits from the right (integer part and fraction both zero-padded as
rust_decimal prints them). -/
def Decimal.render (d : Decimal) : String :=
  let n := d.m.natAbs
  if d.s = 0 then String.mk (intSign d.m ++ natChars n)
  else
    let ip := natChars (n / 10 ^ d.s)
    let fr := natChars (n % 10 ^ d.s)
    String.mk (intSign d.m ++ ip ++ '.' :: (List.replicate (d.s - fr.length) '0' ++ fr))

/-! ## The aggregation pipeline (src/main.rs) -/

/-- One input row (`Date` string and `Value` amount). -/
structure InputEntry where
  datetime : String
  value : Decimal
  deriving DecidableEq

/-- One report row. -/
structure OutputEntry where
  datetime : String
  value : Decimal
  conversion : Decimal
  fiat_gain : Decimal
  deriving DecidableEq

/-- The totals of a report. -/
structure TotalsEntry where
  total_value : Decimal
  avg_conversion : Decimal
  total_fiat_gain : Decimal
  deriving DecidableEq

/-- anyhow-style error value: the stack of context strings, outermost
first (`Context::context` pushes at the front). -/
abbrev ErrCtx := List String

/-- Embedding of `filter_range` (src/main.rs lines 110–134): parse each
entry's timestamp (failure aborts with context `invalid date in input
data`), skip entries before `begin_` or at/after `end_`, keep the rest in
order. -/
def filter_range : List InputEntry → Option NaiveDT → Option NaiveDT →
    Except ErrCtx (List InputEntry)
  | [], _, _ => .ok []
  | entry :: rest, begin_, end_ =>
    match datetime_from_utc_string entry.datetime with
    | .error msg => .error ["invalid date in input data", msg]
    | .ok dt =>
      if (match begin_ with | some b => NaiveDT.lt dt b | none => false) then
        filter_range rest begin_ end_
      else if (match end_ with | some e => NaiveDT.le e dt | none => false) then
        filter_range rest begin_ end_
      else
        (filter_range rest begin_ end_).map (entry :: ·)

/-- Embedding of `process` (src/main.rs lines 136–160).  The HTTP
`PriceClient` is abstracted as the injected lookup `price_fn` (spec §9:
"send GET, get back status+headers+body" capability); progress printing is
I/O-free and omitted.  A lookup failure aborts with the context
`failed to fetch price for <timestamp>`. -/
def process : List InputEntry → String → (String → NaiveDT → Except ErrCtx Decimal) →
    Except ErrCtx (List OutputEntry)
  | [], _, _ => .ok []
  | entry :: rest, symbol, price_fn =>
    match datetime_from_utc_string entry.datetime with
    | .error msg => .error ["invalid date in input data", msg]
    | .ok dt =>
      match price_fn symbol dt with
      | .error err => .error (("failed to fetch price for " ++ entry.datetime) :: err)
      | .ok conversion =>
        (process rest symbol price_fn).map
          (⟨entry.datetime, entry.value, conversion, entry.value.mul conversion⟩ :: ·)

/-- Embedding of `calculate_totals` (src/main.rs lines 167–185). -/
def calculate_totals (report : List OutputEntry) : TotalsEntry :=
  let total_value := report.foldl (fun acc entry => acc.add entry.value) Decimal.zero
  let total_fiat_gain := report.foldl (fun acc entry => acc.add entry.fiat_gain) Decimal.zero
  let avg_conversion :=
    if !total_value.isZero then total_fiat_gain.div total_value else Decimal.zero
  ⟨total_value, avg_conversion, total_fiat_gain⟩

/-- Minimum number of fractional digits for the average price. -/
def AVG_PRICE_MIN_DECIMALS : Nat := 8

/-- One output data row as written by the loop in `write_output`
(src/main.rs lines 202–211): the entry's original datetime string and the
three normalized decimals, comma-separated. -/
def render_row (entry : OutputEntry) : String :=
  entry.datetime ++ "," ++ entry.value.normalize.render ++ ","
    ++ entry.conversion.normalize.render ++ "," ++ entry.fiat_gain.normalize.render

/-- The output loop of `write_output`. -/
def write_rows : List OutputEntry → List String
  | [] => []
  | entry :: rest => render_row entry :: write_rows rest

/-- The `TOTAL` row of `write_output` (src/main.rs lines 213–225). -/
def totals_row (totals : TotalsEntry) : String :=
  let total_value := totals.total_value.normalize
  let total_fiat_gain := totals.total_fiat_gain.normalize
  let max_decimals := max (max total_value.scale total_fiat_gain.scale) AVG_PRICE_MIN_DECIMALS
  let avg_conversion := (totals.avg_conversion.round_dp max_decimals).normalize
  "TOTAL," ++ total_value.render ++ "," ++ avg_conversion.render ++ "," ++ total_fiat_gain.render

/-- Embedding of `write_output` (src/main.rs lines 187–228) as the list of
lines written to the output file: header, data rows, `TOTAL` row. -/
def write_output (report : List OutputEntry) (totals : TotalsEntry) (symbol : String) :
    List String :=
  ("Date,Value," ++ symbol ++ ",Fiat gain") :: (write_rows report ++ [totals_row totals])

/-- The file-producing tail of `main` (src/main.rs lines 62–75): range
filter, price lookups, totals, output lines.  Any error short-circuits
(the `?` operator), so on failure no output lines are produced —
`write_output` (and with it `File::create`) is never reached. -/
def main_pipeline (input : List InputEntry) (begin_ end_ : Option NaiveDT)
    (symbol : String) (price_fn : String → NaiveDT → Except ErrCtx Decimal) :
    Except ErrCtx (List String) := do
  let data ← filter_range input begin_ end_
  let report ← process data symbol price_fn
  let totals := calculate_totals report
  pure (write_output report totals symbol)

/-- The keep-condition of `filter_range` as a predicate on the parsed
timestamp: `begin` absent or `timestamp >= begin`, and `end` absent or
`timestamp < end`. -/
def range_keep (begin_ end_ : Option NaiveDT) (dt : NaiveDT) : Bool :=
  (match begin_ with | some b => NaiveDT.le b dt | none => true)
    && (match end_ with | some e => NaiveDT.lt dt e | none => true)

/-- A rendered number has no unnecessary trailing zeros: if it contains a
decimal point it neither ends in `0` nor in the point itself. -/
def noTrailingZeros (str : String) : Prop :=
  '.' ∈ str.data → (str.data.getLast? ≠ some '0' ∧ str.data.getLast? ≠ some '.')

/-- The close-price field check made by the code: the JSON value is a
string and that string is accepted by `f64` parsing. -/
def numeric_string_field (j : Json) : Bool :=
  match jsonAsStr j with
  | some str => isF64String str
  | none => false

/-- A deterministic stand-in for the price lookup used to instantiate the
pipeline theorems on concrete inputs: a fixed rate for 2023-02-21 and a
failure for every other day. -/
def stub_price_fn : String → NaiveDT → Except ErrCtx Decimal :=
  fun _ d => if d.day = 21 then .ok ⟨2, 0⟩ else .error ["lookup failed"]

end Dotgain



namespace Dotgain

/-! ## Scanner lemmas: the strict fixed-width formats are accepted by the
chrono parsers -/

theorem digit?_some {c : Char} {k : Nat} (h : digit? c = some k) :
    48 ≤ c.toNat ∧ c.toNat = 48 + k ∧ k ≤ 9 := by
  unfold digit? at h
  split at h
  · next hc =>
    injection h with h
    omega
  · exact absurd h (by simp)

theorem isWsp_false_of_digit {c : Char} {k : Nat} (h : digit? c = some k) :
    isWsp c = false := by
  have hh := digit?_some h
  unfold isWsp
  simp only [decide_eq_false_iff_not]
  omega

theorem digit_ne_of_char {c x : Char} {k : Nat} (h : digit? c = some k)
    (hx : x.toNat < 48 ∨ 57 < x.toNat) : c ≠ x := by
  intro e
  have hh := digit?_some h
  have : c.toNat = x.toNat := congrArg Char.toNat e
  omega

theorem trimL_cons_digit {c : Char} {k : Nat} (h : digit? c = some k) (cs : List Char) :
    trimL (c :: cs) = c :: cs := by
  unfold trimL
  rw [isWsp_false_of_digit h]
  simp

theorem trimL_space (cs : List Char) : trimL (' ' :: cs) = trimL cs := by
  show (if isWsp ' ' then trimL cs else ' ' :: cs) = trimL cs
  rw [if_pos (by decide)]

theorem scanCore_of_exact (w : Nat) :
    ∀ (acc cnt : Nat) (cs : List Char) (v : Nat) (rest : List Char),
      exactCore w acc cs = some (v, rest) →
      scanCore w acc cnt cs = (v, cnt + w, rest) := by
  induction w with
  | zero =>
    intro acc cnt cs v rest h
    simp only [exactCore, Option.some.injEq, Prod.mk.injEq] at h
    obtain ⟨h1, h2⟩ := h
    subst h1; subst h2
    simp [scanCore]
  | succ w ih =>
    intro acc cnt cs v rest h
    cases cs with
    | nil => simp [exactCore] at h
    | cons c cs =>
      unfold exactCore at h
      cases hd : digit? c with
      | none => rw [hd] at h; simp at h
      | some k =>
        rw [hd] at h
        simp only at h
        unfold scanCore
        rw [hd]
        simp only
        rw [ih _ _ _ _ _ h]
        have : cnt + 1 + w = cnt + (w + 1) := by omega
        rw [this]

theorem scanNum_of_exact {w : Nat} (hw : 0 < w) {cs rest : List Char} {v : Nat}
    (h : exactNum w cs = some (v, rest)) : scanNum cs w = some (v, rest) := by
  unfold scanNum
  rw [scanCore_of_exact w 0 0 cs v rest h]
  simp only
  rw [if_neg (by omega)]

theorem exactNum_head {w : Nat} (hw : 0 < w) {cs rest : List Char} {v : Nat}
    (h : exactNum w cs = some (v, rest)) :
    ∃ c cs2 k, cs = c :: cs2 ∧ digit? c = some k := by
  cases w with
  | zero => omega
  | succ w =>
    cases cs with
    | nil => simp [exactNum, exactCore] at h
    | cons c cs2 =>
      cases hd : digit? c with
      | none =>
        unfold exactNum exactCore at h
        rw [hd] at h
        simp at h
      | some k => exact ⟨c, cs2, k, rfl, hd⟩

theorem trimL_of_exact {w : Nat} (hw : 0 < w) {cs rest : List Char} {v : Nat}
    (h : exactNum w cs = some (v, rest)) : trimL cs = cs := by
  obtain ⟨c, cs2, k, rfl, hd⟩ := exactNum_head hw h
  exact trimL_cons_digit hd cs2

theorem num2_of_exact {cs rest : List Char} {v : Nat}
    (h : exactNum 2 cs = some (v, rest)) : num2 cs = some (v, rest) := by
  unfold num2
  rw [trimL_of_exact (by omega) h]
  exact scanNum_of_exact (by omega) h

theorem parseYear_of_exact {cs rest : List Char} {v : Nat}
    (h : exactNum 4 cs = some (v, rest)) : parseYear cs = some ((v : Int), rest) := by
  obtain ⟨c, cs2, k, he, hd⟩ := exactNum_head (by omega) h
  subst he
  unfold parseYear
  rw [trimL_cons_digit hd cs2]
  show (if c = '-' then Option.map (fun p => (-(p.1 : Int), p.2)) (scanNumAll cs2)
      else if c = '+' then Option.map (fun p => ((p.1 : Int), p.2)) (scanNumAll cs2)
      else Option.map (fun p => ((p.1 : Int), p.2)) (scanNum (c :: cs2) 4)) = some ((v : Int), rest)
  rw [if_neg (digit_ne_of_char hd (by decide)), if_neg (digit_ne_of_char hd (by decide))]
  rw [scanNum_of_exact (by omega) h]
  rfl

end Dotgain

namespace Dotgain

theorem lit_some {c : Char} {cs rest : List Char} (h : lit c cs = some rest) :
    cs = c :: rest := by
  cases cs with
  | nil => simp [lit] at h
  | cons x cs =>
    have e : lit c (x :: cs) = if x = c then some cs else none := rfl
    rw [e] at h
    split at h
    · next he =>
      injection h with h
      rw [he, h]
    · exact absurd h (by simp)

theorem strictMk_inv {y : Int} {mo d h mi s : Nat} {t : NaiveDT}
    (hs : strictMk y mo d h mi s = some t) :
    t = ⟨y, mo, d, h, mi, s, false⟩
      ∧ 1 ≤ mo ∧ mo ≤ 12 ∧ 1 ≤ d ∧ d ≤ daysInMonth y mo ∧ h ≤ 23 ∧ mi ≤ 59 ∧ s ≤ 59
      ∧ 0 ≤ y ∧ y ≤ 9999 := by
  unfold strictMk at hs
  split at hs
  · next hc =>
    injection hs with hs
    exact ⟨hs.symm, hc⟩
  · exact absurd hs (by simp)

theorem strictMk_fields {y : Int} {mo d h mi s : Nat} {t : NaiveDT}
    (hs : strictMk y mo d h mi s = some t) :
    t.leap = false ∧ 0 ≤ t.year ∧ t.year ≤ 9999 := by
  obtain ⟨ht, hc⟩ := strictMk_inv hs
  subst ht
  refine ⟨rfl, ?_, ?_⟩
  · show 0 ≤ y
    omega
  · show y ≤ 9999
    omega

theorem mkDT_of_strictMk {y : Int} {mo d h mi s : Nat} {t : NaiveDT}
    (hs : strictMk y mo d h mi s = some t) : mkDT y mo d h mi s = some t := by
  obtain ⟨ht, hc⟩ := strictMk_inv hs
  unfold mkDT
  rw [if_pos (by unfold YEAR_MIN YEAR_MAX; omega)]
  rw [ht]
  have h60 : s ≠ 60 := by omega
  simp [h60]

theorem chronoFmt1_of_sfmt1 {cs : List Char} {t : NaiveDT} (h : sfmt1 cs = some t) :
    chronoFmt1 cs = some t := by
  simp only [sfmt1, Option.bind_eq_some] at h
  obtain ⟨py, hy, cs1, hl1, pmo, hmo, cs2, hl2, pd, hdd, cs3, hsp, ph, hh,
    cs4, hl3, pmi, hmi, cs5, hl4, ps, hs, hfin⟩ := h
  have hpd2 : pd.2 = ' ' :: cs3 := lit_some hsp
  have htr : trimL pd.2 = cs3 := by
    rw [hpd2, trimL_space, trimL_of_exact (by omega) hh]
  unfold chronoFmt1
  rw [parseYear_of_exact hy, Option.some_bind]
  simp only
  rw [hl1, Option.some_bind, num2_of_exact hmo, Option.some_bind]
  simp only
  rw [hl2, Option.some_bind, num2_of_exact hdd, Option.some_bind]
  simp only
  rw [htr, num2_of_exact hh, Option.some_bind]
  simp only
  rw [hl3, Option.some_bind, num2_of_exact hmi, Option.some_bind]
  simp only
  rw [hl4, Option.some_bind, num2_of_exact hs, Option.some_bind]
  simp only
  split at hfin
  · next hnil => rw [if_pos hnil]; exact mkDT_of_strictMk hfin
  · exact absurd hfin (by simp)

end Dotgain

namespace Dotgain

theorem chronoFmt2_of_sfmt2 {cs : List Char} {t : NaiveDT} (h : sfmt2 cs = some t) :
    chronoFmt2 cs = some t := by
  simp only [sfmt2, Option.bind_eq_some] at h
  obtain ⟨py, hy, cs1, hl1, pmo, hmo, cs2, hl2, pd, hdd, cs3, hsp, ph, hh,
    cs4, hl3, pmi, hmi, hfin⟩ := h
  have htr : trimL pd.2 = cs3 := by
    rw [lit_some hsp, trimL_space, trimL_of_exact (by omega) hh]
  unfold chronoFmt2
  rw [parseYear_of_exact hy, Option.some_bind]
  simp only
  rw [hl1, Option.some_bind, num2_of_exact hmo, Option.some_bind]
  simp only
  rw [hl2, Option.some_bind, num2_of_exact hdd, Option.some_bind]
  simp only
  rw [htr, num2_of_exact hh, Option.some_bind]
  simp only
  rw [hl3, Option.some_bind, num2_of_exact hmi, Option.some_bind]
  simp only
  split at hfin
  · next hnil => rw [if_pos hnil]; exact mkDT_of_strictMk hfin
  · exact absurd hfin (by simp)

theorem chronoFmt3_of_sfmt3 {cs : List Char} {t : NaiveDT} (h : sfmt3 cs = some t) :
    chronoFmt3 cs = some t := by
  simp only [sfmt3, Option.bind_eq_some] at h
  obtain ⟨py, hy, cs1, hl1, pmo, hmo, cs2, hl2, pd, hdd, hfin⟩ := h
  unfold chronoFmt3
  rw [parseYear_of_exact hy, Option.some_bind]
  simp only
  rw [hl1, Option.some_bind, num2_of_exact hmo, Option.some_bind]
  simp only
  rw [hl2, Option.some_bind, num2_of_exact hdd, Option.some_bind]
  simp only
  split at hfin
  · next hnil => rw [if_pos hnil]; exact mkDT_of_strictMk hfin
  · exact absurd hfin (by simp)

theorem chronoFmt1_none_of_sfmt2 {cs : List Char} {t : NaiveDT} (h : sfmt2 cs = some t) :
    chronoFmt1 cs = none := by
  simp only [sfmt2, Option.bind_eq_some] at h
  obtain ⟨py, hy, cs1, hl1, pmo, hmo, cs2, hl2, pd, hdd, cs3, hsp, ph, hh,
    cs4, hl3, pmi, hmi, hfin⟩ := h
  have htr : trimL pd.2 = cs3 := by
    rw [lit_some hsp, trimL_space, trimL_of_exact (by omega) hh]
  have hnil : pmi.2 = [] := by
    split at hfin
    · next hnil => exact hnil
    · exact absurd hfin (by simp)
  unfold chronoFmt1
  rw [parseYear_of_exact hy, Option.some_bind]
  simp only
  rw [hl1, Option.some_bind, num2_of_exact hmo, Option.some_bind]
  simp only
  rw [hl2, Option.some_bind, num2_of_exact hdd, Option.some_bind]
  simp only
  rw [htr, num2_of_exact hh, Option.some_bind]
  simp only
  rw [hl3, Option.some_bind, num2_of_exact hmi, Option.some_bind]
  simp only
  rw [hnil]
  rfl

theorem chronoFmt1_none_of_sfmt3 {cs : List Char} {t : NaiveDT} (h : sfmt3 cs = some t) :
    chronoFmt1 cs = none := by
  simp only [sfmt3, Option.bind_eq_some] at h
  obtain ⟨py, hy, cs1, hl1, pmo, hmo, cs2, hl2, pd, hdd, hfin⟩ := h
  have hnil : pd.2 = [] := by
    split at hfin
    · next hnil => exact hnil
    · exact absurd hfin (by simp)
  unfold chronoFmt1
  rw [parseYear_of_exact hy, Option.some_bind]
  simp only
  rw [hl1, Option.some_bind, num2_of_exact hmo, Option.some_bind]
  simp only
  rw [hl2, Option.some_bind, num2_of_exact hdd, Option.some_bind]
  simp only
  rw [hnil]
  rfl

theorem chronoFmt2_none_of_sfmt3 {cs : List Char} {t : NaiveDT} (h : sfmt3 cs = some t) :
    chronoFmt2 cs = none := by
  simp only [sfmt3, Option.bind_eq_some] at h
  obtain ⟨py, hy, cs1, hl1, pmo, hmo, cs2, hl2, pd, hdd, hfin⟩ := h
  have hnil : pd.2 = [] := by
    split at hfin
    · next hnil => exact hnil
    · exact absurd hfin (by simp)
  unfold chronoFmt2
  rw [parseYear_of_exact hy, Option.some_bind]
  simp only
  rw [hl1, Option.some_bind, num2_of_exact hmo, Option.some_bind]
  simp only
  rw [hl2, Option.some_bind, num2_of_exact hdd, Option.some_bind]
  simp only
  rw [hnil]
  rfl

theorem try_from_human_strict {s : String} {t : NaiveDT}
    (h : strict_format_match s = some t) : try_from_human s = .ok t := by
  unfold strict_format_match at h
  unfold try_from_human
  cases h1 : sfmt1 s.data with
  | some t1 =>
    rw [h1] at h
    simp only at h
    injection h with h
    rw [chronoFmt1_of_sfmt1 h1, h]
  | none =>
    rw [h1] at h
    simp only at h
    cases h2 : sfmt2 s.data with
    | some t2 =>
      rw [h2] at h
      simp only at h
      injection h with h
      rw [chronoFmt1_none_of_sfmt2 h2, chronoFmt2_of_sfmt2 h2, h]
    | none =>
      rw [h2] at h
      simp only at h
      rw [chronoFmt1_none_of_sfmt3 h, chronoFmt2_none_of_sfmt3 h, chronoFmt3_of_sfmt3 h]

end Dotgain

namespace Dotgain

theorem sfmt1_fields {cs : List Char} {t : NaiveDT} (h : sfmt1 cs = some t) :
    t.leap = false ∧ 0 ≤ t.year ∧ t.year ≤ 9999 := by
  simp only [sfmt1, Option.bind_eq_some] at h
  obtain ⟨py, hy, cs1, hl1, pmo, hmo, cs2, hl2, pd, hdd, cs3, hsp, ph, hh,
    cs4, hl3, pmi, hmi, cs5, hl4, ps, hs, hfin⟩ := h
  split at hfin
  · exact strictMk_fields hfin
  · exact absurd hfin (by simp)

theorem sfmt2_fields {cs : List Char} {t : NaiveDT} (h : sfmt2 cs = some t) :
    t.leap = false ∧ 0 ≤ t.year ∧ t.year ≤ 9999 := by
  simp only [sfmt2, Option.bind_eq_some] at h
  obtain ⟨py, hy, cs1, hl1, pmo, hmo, cs2, hl2, pd, hdd, cs3, hsp, ph, hh,
    cs4, hl3, pmi, hmi, hfin⟩ := h
  split at hfin
  · exact strictMk_fields hfin
  · exact absurd hfin (by simp)

theorem sfmt3_fields {cs : List Char} {t : NaiveDT} (h : sfmt3 cs = some t) :
    t.leap = false ∧ 0 ≤ t.year ∧ t.year ≤ 9999 := by
  simp only [sfmt3, Option.bind_eq_some] at h
  obtain ⟨py, hy, cs1, hl1, pmo, hmo, cs2, hl2, pd, hdd, hfin⟩ := h
  split at hfin
  · exact strictMk_fields hfin
  · exact absurd hfin (by simp)

theorem strict_fields {s : String} {t : NaiveDT} (h : strict_format_match s = some t) :
    t.leap = false ∧ 0 ≤ t.year ∧ t.year ≤ 9999 := by
  unfold strict_format_match at h
  cases h1 : sfmt1 s.data with
  | some t1 =>
    rw [h1] at h
    simp only at h
    injection h with h
    rw [← h]
    exact sfmt1_fields h1
  | none =>
    rw [h1] at h
    simp only at h
    cases h2 : sfmt2 s.data with
    | some t2 =>
      rw [h2] at h
      simp only at h
      injection h with h
      rw [← h]
      exact sfmt2_fields h2
    | none =>
      rw [h2] at h
      simp only at h
      exact sfmt3_fields h

theorem into_human_canonical {t : NaiveDT} (hleap : t.leap = false)
    (hy0 : 0 ≤ t.year) (hy1 : t.year ≤ 9999) :
    into_human t = canonical_render t := by
  have h1 : ¬ t.year < 0 := by omega
  have h2 : t.year.toNat ≤ 9999 := by omega
  simp [into_human, canonical_render, yearChars, pad4plus, h1, h2, hleap]

end Dotgain



namespace Dotgain

/-- Truncating division agrees with the floored-minute formula on
non-negative timestamps. -/
theorem start_time_floor {t : Int} (ht : 0 ≤ t) :
    Int.tdiv (t * 1000) 60000 * 60000 = t.fdiv 60 * 60000 := by
  rw [Int.tdiv_eq_ediv (by positivity) (by norm_num), Int.fdiv_eq_ediv _ (by norm_num)]
  congr 1
  calc t * 1000 / 60000 = 1000 * t / (1000 * 60) := by ring_nf
    _ = t / 60 := Int.mul_ediv_mul_of_pos _ _ (by norm_num)

/-- C3 (counterexample): for the pre-epoch instant 1969-12-31 23:58:59 the
code's truncating division does not yield the floored-minute start
`floor(unixSeconds / 60) * 60 * 1000`, and the same-minute instant
1969-12-31 23:58:00 yields a different request start, contradicting the
claim's universal quantification over every instant. -/
theorem c3_counterexample :
    price_start_time_ms ⟨1969, 12, 31, 23, 58, 59, false⟩ ≠
        Int.fdiv (NaiveDT.timestamp ⟨1969, 12, 31, 23, 58, 59, false⟩) 60 * (60 * 1000) ∧
      Int.fdiv (NaiveDT.timestamp ⟨1969, 12, 31, 23, 58, 59, false⟩) 60 =
        Int.fdiv (NaiveDT.timestamp ⟨1969, 12, 31, 23, 58, 0, false⟩) 60 ∧
      price_start_time_ms ⟨1969, 12, 31, 23, 58, 59, false⟩ ≠
        price_start_time_ms ⟨1969, 12, 31, 23, 58, 0, false⟩ := by
  decide

/-- C3 (amended): for every instant at or after the Unix epoch
(timestamp ≥ 0) the request start equals
`floor(unixSeconds / 60) * 60 * 1000`, and all same-minute instants at or
after the epoch share the same request start; for pre-epoch instants the
code truncates toward zero instead of flooring. -/
theorem c3_amended (dt dt2 : NaiveDT) (h : 0 ≤ dt.timestamp) (h2 : 0 ≤ dt2.timestamp)
    (hmin : Int.fdiv dt2.timestamp 60 = Int.fdiv dt.timestamp 60) :
    price_start_time_ms dt = Int.fdiv dt.timestamp 60 * (60 * 1000) ∧
      price_start_time_ms dt2 = price_start_time_ms dt := by
  have e1 : price_start_time_ms dt = Int.fdiv dt.timestamp 60 * 60000 := by
    unfold price_start_time_ms
    exact start_time_floor h
  have e2 : price_start_time_ms dt2 = Int.fdiv dt2.timestamp 60 * 60000 := by
    unfold price_start_time_ms
    exact start_time_floor h2
  constructor
  · rw [e1]; norm_num
  · rw [e1, e2, hmin]

/-- C3 (witness): the spec's example — 2023-02-21 17:53:28 maps to the
start of minute 2023-02-21 17:53:00, and the instant 17:53:00 itself maps
to the same request start. -/
theorem c3_amended_witness :
    price_start_time_ms ⟨2023, 2, 21, 17, 53, 28, false⟩ =
        Int.fdiv (NaiveDT.timestamp ⟨2023, 2, 21, 17, 53, 28, false⟩) 60 * (60 * 1000) ∧
      price_start_time_ms ⟨2023, 2, 21, 17, 53, 0, false⟩ =
        price_start_time_ms ⟨2023, 2, 21, 17, 53, 28, false⟩ :=
  c3_amended ⟨2023, 2, 21, 17, 53, 28, false⟩ ⟨2023, 2, 21, 17, 53, 0, false⟩
    (by decide) (by decide) (by decide)

/-- C7 (counterexample): the unpadded string `2023-2-21` matches none of
the three spec formats, yet `try_from_human` accepts it — chrono's numeric
parsing is lenient about zero padding, so parsing does not fail on every
string outside the three accepted formats. -/
theorem c7_counterexample :
    (try_from_human "2023-2-21").isOk = true ∧ strict_format_match "2023-2-21" = none := by
  decide

/-- C7 (amended): `try_from_human` succeeds on every string matching one of
the three accepted formats (tried in order, interpreted as UTC) and
additionally on chrono's lenient variants of them (unpadded numeric
fields, whitespace before numeric fields, leap second 60); it fails with
the `invalid date` error on strings no format accepts, such as
`2023/02/21`, `21-02-2023` and the empty string. -/
theorem c7_amended :
    (∀ s t, strict_format_match s = some t → try_from_human s = .ok t) ∧
      (try_from_human "2023-2-21").isOk = true ∧
      try_from_human "2023/02/21" = .error "invalid date: 2023/02/21" ∧
      try_from_human "21-02-2023" = .error "invalid date: 21-02-2023" ∧
      try_from_human "" = .error "invalid date: " :=
  ⟨fun _ _ h => try_from_human_strict h, by decide, by decide, by decide, by decide⟩

/-- C7 (witness): a concrete full-format string is parsed to the expected
UTC instant by the first format. -/
theorem c7_amended_witness :
    try_from_human "2023-01-02 03:04:05" = .ok ⟨2023, 1, 2, 3, 4, 5, false⟩ :=
  c7_amended.1 "2023-01-02 03:04:05" ⟨2023, 1, 2, 3, 4, 5, false⟩ (by decide)

/-- C8: every string matching one of the three accepted date formats
parses successfully, and formatting the parsed instant with the companion
formatter yields the canonical `YYYY-MM-DD HH:MM:SS` rendering of that
instant, omitted time components filled with zeros. -/
theorem c8_roundtrip :
    ∀ (s : String) (t : NaiveDT), strict_format_match s = some t →
      Except.map into_human (try_from_human s) = .ok (canonical_render t) := by
  intro s t h
  rw [try_from_human_strict h]
  obtain ⟨hl, h0, h1⟩ := strict_fields h
  simp [Except.map, into_human_canonical hl h0 h1]

/-- C8 (witness): the date-only string `2023-02-21` round-trips to
`2023-02-21 00:00:00` with the time components zero-filled. -/
theorem c8_roundtrip_witness :
    Except.map into_human (try_from_human "2023-02-21") =
        .ok (canonical_render ⟨2023, 2, 21, 0, 0, 0, false⟩) ∧
      canonical_render ⟨2023, 2, 21, 0, 0, 0, false⟩ = "2023-02-21 00:00:00" :=
  ⟨c8_roundtrip "2023-02-21" ⟨2023, 2, 21, 0, 0, 0, false⟩ (by decide), by decide⟩

end Dotgain

namespace Dotgain

theorem isOk_error {e : Type} {a : Type} (x : e) :
    (Except.error x : Except e a).isOk = false := rfl

theorem isOk_ok {e : Type} {a : Type} (x : a) :
    (Except.ok x : Except e a).isOk = true := rfl

/-- C1: on a success-status response, `extract_price_from_payload` fails
exactly when the parsed body is empty, or the first record does not have
exactly 12 fields, or its field 0 is not an integer, or field 0 differs
from the requested minute-floored millisecond timestamp, or field 4 is not
a numeric string; in particular a well-formed candle whose open time does
not equal the requested timestamp is rejected. -/
theorem c1_extract_error_iff :
    ∀ (payload : List (List Json)) (start_time_ms : Int),
      (extract_price_from_payload payload start_time_ms).isOk = false ↔
        payload = [] ∨
          (payload.headD []).length ≠ KLINE_FIELDS_NUM ∨
          jsonAsI64 ((payload.headD []).getD 0 .null) = none ∨
          jsonAsI64 ((payload.headD []).getD 0 .null) ≠ some start_time_ms ∨
          numeric_string_field ((payload.headD []).getD 4 .null) = false := by
  intro payload ms
  cases payload with
  | nil => simp [extract_price_from_payload, isOk_error]
  | cons r rest =>
    have hne : ((r :: rest : List (List Json))).isEmpty = false := rfl
    unfold extract_price_from_payload
    rw [hne]
    simp only [Bool.false_eq_true, if_false, List.headD_cons, List.cons_ne_nil, false_or]
    by_cases hlen : r.length ≠ KLINE_FIELDS_NUM
    · rw [if_pos hlen]
      exact iff_of_true (isOk_error _) (Or.inl hlen)
    · rw [if_neg hlen]
      simp only [hlen, false_or]
      cases hi : jsonAsI64 (r.getD 0 .null) with
      | none => exact iff_of_true (isOk_error _) (Or.inl rfl)
      | some i =>
        simp only [Option.some.injEq, reduceCtorEq, false_or]
        by_cases heq : i ≠ ms
        · rw [if_pos heq]
          exact iff_of_true (isOk_error _) (Or.inl (by simpa using heq))
        · rw [if_neg heq]
          push_neg at heq
          subst heq
          simp only [ne_eq, not_true_eq_false, false_or]
          cases hs : jsonAsStr (r.getD 4 .null) with
          | none =>
            refine iff_of_true (isOk_error _) ?_
            unfold numeric_string_field
            rw [hs]
          | some str =>
            show (if isF64String str = true then (Except.ok str : Except String String)
                else Except.error "cannot convert price entry to number").isOk = false ↔
              numeric_string_field (r.getD 4 Json.null) = false
            by_cases hf : isF64String str = true
            · rw [if_pos hf]
              refine iff_of_false (by simp [isOk_ok]) ?_
              intro hc
              unfold numeric_string_field at hc
              rw [hs] at hc
              have hc2 : isF64String str = false := hc
              rw [hf] at hc2
              exact absurd hc2 (by simp)
            · rw [if_neg hf]
              refine iff_of_true (isOk_error _) ?_
              unfold numeric_string_field
              rw [hs]
              show isF64String str = false
              simpa using hf

/-- C10: the validation and extraction examine only the first record of
the payload — any records after the first are ignored, so the result on
`r :: rest` equals the result on `[r]` for every tail `rest`. -/
theorem c10_only_first_record :
    ∀ (r : List Json) (rest : List (List Json)) (start_time_ms : Int),
      extract_price_from_payload (r :: rest) start_time_ms =
        extract_price_from_payload [r] start_time_ms := by
  intro r rest ms
  rfl

end Dotgain

namespace Dotgain

theorem lt_eq_not_le (a b : NaiveDT) : NaiveDT.lt a b = !NaiveDT.le b a := by
  unfold NaiveDT.lt NaiveDT.le
  by_cases hk : a.key < b.key
  · rw [decide_eq_true hk, decide_eq_false (by omega)]
    rfl
  · rw [decide_eq_false hk, decide_eq_true (by omega)]
    rfl

theorem le_eq_not_lt (a b : NaiveDT) : NaiveDT.le a b = !NaiveDT.lt b a := by
  rw [lt_eq_not_le]
  simp

/-- C6: on well-formed timestamps, `filter_range` keeps exactly the entries
whose timestamp is at or after `begin_` (when present) and strictly before
`end_` (when present) — begin inclusive, end exclusive — and, being a
`List.filter`, preserves the relative order of the surviving entries. -/
theorem c6_filter_range :
    ∀ (input : List InputEntry) (begin_ end_ : Option NaiveDT),
      (∀ entry ∈ input, (datetime_from_utc_string entry.datetime).isOk = true) →
      filter_range input begin_ end_ =
        .ok (input.filter fun entry =>
          match datetime_from_utc_string entry.datetime with
          | .ok dt => range_keep begin_ end_ dt
          | .error _ => false) := by
  intro input begin_ end_
  induction input with
  | nil => intro _; rfl
  | cons hd tl ih =>
    intro h
    have hhd := h hd (List.mem_cons_self hd tl)
    have htl : ∀ entry ∈ tl, (datetime_from_utc_string entry.datetime).isOk = true :=
      fun e he => h e (List.mem_cons_of_mem hd he)
    cases hok : datetime_from_utc_string hd.datetime with
    | error msg => rw [hok] at hhd; exact absurd hhd (by simp [isOk_error])
    | ok dt =>
      unfold filter_range
      rw [hok]
      simp only
      rw [List.filter_cons]
      have hpred : (match datetime_from_utc_string hd.datetime with
          | .ok dt => range_keep begin_ end_ dt
          | .error _ => false) = range_keep begin_ end_ dt := by rw [hok]
      rw [hpred]
      cases begin_ with
      | none =>
        cases end_ with
        | none => simp [range_keep, ih htl, Except.map]
        | some e =>
          cases h2 : NaiveDT.lt dt e with
          | true =>
            have h2' : NaiveDT.le e dt = false := by rw [le_eq_not_lt, h2]; rfl
            simp [range_keep, h2, h2', ih htl, Except.map]
          | false =>
            have h2' : NaiveDT.le e dt = true := by rw [le_eq_not_lt, h2]; rfl
            simp [range_keep, h2, h2', ih htl, Except.map]
      | some b =>
        cases h1 : NaiveDT.lt dt b with
        | true =>
          have h1' : NaiveDT.le b dt = false := by rw [le_eq_not_lt, h1]; rfl
          simp [range_keep, h1, h1', ih htl, Except.map]
        | false =>
          have h1' : NaiveDT.le b dt = true := by rw [le_eq_not_lt, h1]; rfl
          cases end_ with
          | none => simp [range_keep, h1, h1', ih htl, Except.map]
          | some e =>
            cases h2 : NaiveDT.lt dt e with
            | true =>
              have h2' : NaiveDT.le e dt = false := by rw [le_eq_not_lt, h2]; rfl
              simp [range_keep, h1, h1', h2, h2', ih htl, Except.map]
            | false =>
              have h2' : NaiveDT.le e dt = true := by rw [le_eq_not_lt, h2]; rfl
              simp [range_keep, h1, h1', h2, h2', ih htl, Except.map]

/-- C6 (witness): the spec's example — entries at 2023-01-01, 2023-01-02
and 2023-01-03 with begin 2023-01-02 (inclusive) and end 2023-01-03
(exclusive) keep exactly the 2023-01-02 entry. -/
theorem c6_filter_range_witness :
    filter_range
        [⟨"2023-01-01", ⟨1, 0⟩⟩, ⟨"2023-01-02", ⟨2, 0⟩⟩, ⟨"2023-01-03", ⟨3, 0⟩⟩]
        (some ⟨2023, 1, 2, 0, 0, 0, false⟩) (some ⟨2023, 1, 3, 0, 0, 0, false⟩) =
      .ok ([⟨"2023-01-01", ⟨1, 0⟩⟩, ⟨"2023-01-02", ⟨2, 0⟩⟩,
          ⟨"2023-01-03", ⟨3, 0⟩⟩].filter fun entry =>
        match datetime_from_utc_string entry.datetime with
        | .ok dt => range_keep (some ⟨2023, 1, 2, 0, 0, 0, false⟩)
            (some ⟨2023, 1, 3, 0, 0, 0, false⟩) dt
        | .error _ => false) ∧
    ([⟨"2023-01-01", ⟨1, 0⟩⟩, ⟨"2023-01-02", ⟨2, 0⟩⟩,
        ⟨"2023-01-03", ⟨3, 0⟩⟩].filter fun (entry : InputEntry) =>
      match datetime_from_utc_string entry.datetime with
      | .ok dt => range_keep (some ⟨2023, 1, 2, 0, 0, 0, false⟩)
          (some ⟨2023, 1, 3, 0, 0, 0, false⟩) dt
      | .error _ => false) = [⟨"2023-01-02", ⟨2, 0⟩⟩] :=
  ⟨c6_filter_range _ _ _ (by decide), by decide⟩

end Dotgain

namespace Dotgain

/-- C4: if every entry before some entry parses and looks up successfully
and the price lookup fails for that entry, then `process` aborts with the
lookup failure wrapped in the context `failed to fetch price for
<timestamp>` (returning no report rows), and the whole pipeline returns
that error — `write_output` is never reached, so no output lines are
produced. -/
theorem c4_abort_on_failure :
    ∀ (pre post : List InputEntry) (entry : InputEntry) (symbol : String)
      (price_fn : String → NaiveDT → Except ErrCtx Decimal) (err : ErrCtx) (dt : NaiveDT),
      (∀ e ∈ pre, ∃ d c, datetime_from_utc_string e.datetime = .ok d
        ∧ price_fn symbol d = .ok c) →
      datetime_from_utc_string entry.datetime = .ok dt →
      price_fn symbol dt = .error err →
      process (pre ++ entry :: post) symbol price_fn =
          .error (("failed to fetch price for " ++ entry.datetime) :: err) ∧
        ∀ (input : List InputEntry) (begin_ end_ : Option NaiveDT),
          filter_range input begin_ end_ = .ok (pre ++ entry :: post) →
          main_pipeline input begin_ end_ symbol price_fn =
            .error (("failed to fetch price for " ++ entry.datetime) :: err) := by
  intro pre post entry symbol price_fn err dt hpre hdt hpf
  have hproc : process (pre ++ entry :: post) symbol price_fn =
      .error (("failed to fetch price for " ++ entry.datetime) :: err) := by
    induction pre with
    | nil =>
      rw [List.nil_append]
      unfold process
      rw [hdt]
      simp only
      rw [hpf]
    | cons p pre ih =>
      obtain ⟨d, c, hd, hc⟩ := hpre p (List.mem_cons_self p pre)
      have hpre2 : ∀ e ∈ pre, ∃ d c, datetime_from_utc_string e.datetime = .ok d
          ∧ price_fn symbol d = .ok c :=
        fun e he => hpre e (List.mem_cons_of_mem p he)
      rw [List.cons_append]
      unfold process
      rw [hd]
      simp only
      rw [hc]
      simp only
      rw [ih hpre2]
      rfl
  refine ⟨hproc, ?_⟩
  intro input begin_ end_ hf
  unfold main_pipeline
  rw [hf]
  show Except.bind (Except.ok (pre ++ entry :: post)) _ =
    Except.error (("failed to fetch price for " ++ entry.datetime) :: err)
  rw [Except.bind]
  simp only
  rw [hproc]
  rfl

end Dotgain

namespace Dotgain

theorem Decimal.add_toRat (a b : Decimal) : (a.add b).toRat = a.toRat + b.toRat := by
  unfold Decimal.add Decimal.toRat
  simp only
  push_cast
  rw [pow_sub₀ (10 : ℚ) (by norm_num) (le_max_left a.s b.s),
    pow_sub₀ (10 : ℚ) (by norm_num) (le_max_right a.s b.s)]
  field_simp
  ring

theorem Decimal.zero_toRat : Decimal.zero.toRat = 0 := by
  unfold Decimal.zero Decimal.toRat
  norm_num

theorem foldl_add_toRat (f : OutputEntry → Decimal) (l : List OutputEntry) :
    ∀ init : Decimal, (l.foldl (fun acc e => acc.add (f e)) init).toRat
      = init.toRat + (l.map fun e => (f e).toRat).sum := by
  induction l with
  | nil => intro init; simp
  | cons hd tl ih =>
    intro init
    simp only [List.foldl_cons, List.map_cons, List.sum_cons]
    rw [ih, Decimal.add_toRat]
    ring

theorem process_rows :
    ∀ (input : List InputEntry) (symbol : String)
      (price_fn : String → NaiveDT → Except ErrCtx Decimal) (output : List OutputEntry),
      process input symbol price_fn = .ok output →
      ∀ e ∈ output, e.fiat_gain = e.value.mul e.conversion := by
  intro input
  induction input with
  | nil =>
    intro symbol pf output h e he
    unfold process at h
    injection h with h
    subst h
    simp at he
  | cons hd tl ih =>
    intro symbol pf output h e he
    unfold process at h
    cases hok : datetime_from_utc_string hd.datetime with
    | error msg => rw [hok] at h; exact absurd h (by simp)
    | ok dt =>
      rw [hok] at h
      simp only at h
      cases hpf : pf symbol dt with
      | error err => rw [hpf] at h; exact absurd h (by simp)
      | ok conv =>
        rw [hpf] at h
        simp only at h
        cases hrec : process tl symbol pf with
        | error e2 => rw [hrec] at h; exact absurd h (by simp [Except.map])
        | ok l =>
          rw [hrec] at h
          simp only [Except.map] at h
          injection h with h
          subst h
          rcases List.mem_cons.mp he with he2 | he2
          · rw [he2]
          · exact ih symbol pf l hrec e he2

/-- C5: for a successfully processed report, each row's fiat gain equals
its amount times its conversion rate, the totals are the sums of the row
amounts and row fiat gains, and the average rate is the decimal quotient
`totalFiatGain / totalAmount` when the total amount is nonzero and zero
when the total amount is zero (the division is guarded, so it never
divides by zero). -/
theorem c5_totals :
    ∀ (input : List InputEntry) (symbol : String)
      (price_fn : String → NaiveDT → Except ErrCtx Decimal) (output : List OutputEntry),
      process input symbol price_fn = .ok output →
      (∀ e ∈ output, e.fiat_gain = e.value.mul e.conversion) ∧
        (calculate_totals output).total_value.toRat
            = (output.map fun e => e.value.toRat).sum ∧
        (calculate_totals output).total_fiat_gain.toRat
            = (output.map fun e => e.fiat_gain.toRat).sum ∧
        ((calculate_totals output).total_value.isZero = false →
          (calculate_totals output).avg_conversion
            = Decimal.div (calculate_totals output).total_fiat_gain
                (calculate_totals output).total_value) ∧
        ((calculate_totals output).total_value.isZero = true →
          (calculate_totals output).avg_conversion = Decimal.zero) := by
  intro input symbol pf output h
  refine ⟨process_rows input symbol pf output h, ?_, ?_, ?_, ?_⟩
  · show (output.foldl (fun acc entry => acc.add entry.value) Decimal.zero).toRat = _
    rw [foldl_add_toRat (fun e => e.value) output Decimal.zero, Decimal.zero_toRat, zero_add]
  · show (output.foldl (fun acc entry => acc.add entry.fiat_gain) Decimal.zero).toRat = _
    rw [foldl_add_toRat (fun e => e.fiat_gain) output Decimal.zero, Decimal.zero_toRat, zero_add]
  · intro hz
    show (if !(calculate_totals output).total_value.isZero then
        Decimal.div (calculate_totals output).total_fiat_gain
          (calculate_totals output).total_value
      else Decimal.zero) = _
    rw [hz]
    rfl
  · intro hz
    show (if !(calculate_totals output).total_value.isZero then
        Decimal.div (calculate_totals output).total_fiat_gain
          (calculate_totals output).total_value
      else Decimal.zero) = _
    rw [hz]
    rfl

end Dotgain

namespace Dotgain

theorem digitChar10_toNat (j : Nat) : (digitChar10 j).toNat = 48 + j % 10 := by
  have hj : j % 10 < 10 := Nat.mod_lt _ (by omega)
  unfold digitChar10
  set k := j % 10 with hk
  interval_cases k <;> decide

theorem ne_char_of_toNat {c x : Char} (h : c.toNat ≠ x.toNat) : c ≠ x :=
  fun e => h (congrArg Char.toNat e)

theorem mem_digitsLEAux {c : Char} :
    ∀ (fuel n : Nat), c ∈ digitsLEAux fuel n → ∃ j, c = digitChar10 j := by
  intro fuel
  induction fuel with
  | zero => intro n h; simp [digitsLEAux] at h
  | succ fuel ih =>
    intro n h
    unfold digitsLEAux at h
    split at h
    · rw [List.mem_singleton] at h
      exact ⟨n, h⟩
    · rcases List.mem_cons.mp h with h2 | h2
      · exact ⟨n % 10, h2⟩
      · exact ih _ h2

theorem mem_natChars_toNat {c : Char} {n : Nat} (h : c ∈ natChars n) :
    48 ≤ c.toNat ∧ c.toNat ≤ 57 := by
  unfold natChars at h
  rw [List.mem_reverse] at h
  obtain ⟨j, hj⟩ := mem_digitsLEAux _ _ h
  rw [hj, digitChar10_toNat]
  have : j % 10 < 10 := Nat.mod_lt _ (by omega)
  omega

theorem digitsLE_head (n : Nat) : (digitsLE n).head? = some (digitChar10 (n % 10)) := by
  show (if n < 10 then [digitChar10 n]
      else digitChar10 (n % 10) :: digitsLEAux n (n / 10)).head? = _
  by_cases h : n < 10
  · rw [if_pos h]
    rw [Nat.mod_eq_of_lt h]
    rfl
  · rw [if_neg h]
    rfl

theorem natChars_getLast (n : Nat) :
    (natChars n).getLast? = some (digitChar10 (n % 10)) := by
  unfold natChars
  rw [List.getLast?_reverse]
  exact digitsLE_head n

theorem natChars_ne_nil (n : Nat) : natChars n ≠ [] := by
  intro h
  have := natChars_getLast n
  rw [h] at this
  simp at this

theorem normCore_prop : ∀ (s : Nat) (m : Int),
    (normCore m s).s = 0 ∨ (normCore m s).m % 10 ≠ 0 := by
  intro s
  induction s with
  | zero => intro m; left; rfl
  | succ s ih =>
    intro m
    unfold normCore
    split
    · exact ih (m / 10)
    · next h => right; exact h

theorem no_dot_digits {m : Int} {n : Nat} : '.' ∉ intSign m ++ natChars n := by
  intro h
  rcases List.mem_append.mp h with h2 | h2
  · unfold intSign at h2
    split at h2
    · rw [List.mem_singleton] at h2
      exact absurd h2 (by decide)
    · simp at h2
  · have := mem_natChars_toNat h2
    have hd : ('.' : Char).toNat = 46 := by decide
    omega

/-- After `normalize`, the rendered decimal has no unnecessary trailing
zeros: either it has no fractional part at all, or its last character is
the last (nonzero) digit of the mantissa. -/
theorem render_normalize_noTrailingZeros (d : Decimal) :
    noTrailingZeros d.normalize.render := by
  have hprop := normCore_prop d.s d.m
  set d' := d.normalize with hd'
  have hprop' : d'.s = 0 ∨ d'.m % 10 ≠ 0 := hprop
  unfold Decimal.render
  by_cases hs0 : d'.s = 0
  · rw [if_pos hs0]
    intro hdot
    exact absurd hdot no_dot_digits
  · rw [if_neg hs0]
    have hm : d'.m % 10 ≠ 0 := by
      rcases hprop' with h | h
      · exact absurd h hs0
      · exact h
    have hn10 : d'.m.natAbs % 10 ≠ 0 := by
      intro hc
      apply hm
      apply Int.emod_eq_zero_of_dvd
      rw [← Int.natAbs_dvd_natAbs]
      show (10 : Int).natAbs ∣ d'.m.natAbs
      exact Nat.dvd_of_mod_eq_zero hc
    set n := d'.m.natAbs with hn
    have hfr : (natChars (n % 10 ^ d'.s)).getLast?
        = some (digitChar10 (n % 10)) := by
      rw [natChars_getLast]
      congr 2
      exact Nat.mod_mod_of_dvd n (dvd_pow_self 10 hs0)
    intro hdot
    have hlast : (intSign d'.m ++ natChars (n / 10 ^ d'.s)
        ++ '.' :: (List.replicate (d'.s - (natChars (n % 10 ^ d'.s)).length) '0'
          ++ natChars (n % 10 ^ d'.s))).getLast? = some (digitChar10 (n % 10)) := by
      rw [List.getLast?_append]
      rw [show ('.' :: (List.replicate (d'.s - (natChars (n % 10 ^ d'.s)).length) '0'
          ++ natChars (n % 10 ^ d'.s)))
        = ['.'] ++ (List.replicate (d'.s - (natChars (n % 10 ^ d'.s)).length) '0'
          ++ natChars (n % 10 ^ d'.s)) from rfl]
      rw [List.getLast?_append, List.getLast?_append, hfr]
      rfl
    constructor
    · show _ ≠ some '0'
      rw [hlast]
      intro hc
      injection hc with hc
      have h1 := digitChar10_toNat (n % 10)
      have h2 : ('0' : Char).toNat = 48 := by decide
      rw [hc, h2] at h1
      have h3 : n % 10 % 10 = n % 10 := Nat.mod_mod_of_dvd _ (by norm_num)
      omega
    · show _ ≠ some '.'
      rw [hlast]
      intro hc
      injection hc with hc
      have h1 := digitChar10_toNat (n % 10)
      have h2 : ('.' : Char).toNat = 46 := by decide
      rw [hc, h2] at h1
      omega

end Dotgain

namespace Dotgain

theorem write_rows_eq_map (l : List OutputEntry) : write_rows l = l.map render_row := by
  induction l with
  | nil => rfl
  | cons hd tl ih =>
    unfold write_rows
    rw [ih]
    rfl

/-- C9 (counterexample): the data rows of the output echo the entry's
original datetime string rather than rendering it through the companion
formatter — for the valid date-only input `2023-02-21`, the written row's
timestamp field stays `2023-02-21` while the formatter renders the parsed
instant as `2023-02-21 00:00:00`, so the row differs from the one the
claim requires. -/
theorem c9_counterexample :
    (write_output [⟨"2023-02-21", ⟨5, 0⟩, ⟨2, 0⟩, ⟨10, 0⟩⟩]
        (calculate_totals [⟨"2023-02-21", ⟨5, 0⟩, ⟨2, 0⟩, ⟨10, 0⟩⟩]) "DOTEUR").get? 1
        = some "2023-02-21,5,2,10" ∧
      Except.map into_human (datetime_from_utc_string "2023-02-21")
        = .ok "2023-02-21 00:00:00" ∧
      "2023-02-21,5,2,10" ≠ "2023-02-21 00:00:00,5,2,10" := by
  decide

/-- C9 (amended): every data row of the output is the entry's original
datetime string (unchanged — for full-format inputs this coincides with
the canonical form, but date-only or minute-precision inputs are echoed,
not reformatted) followed by the three decimals, each rendered after
`normalize`; and a normalized decimal rendering never carries unnecessary
trailing zeros. -/
theorem c9_amended :
    (∀ (report : List OutputEntry) (totals : TotalsEntry) (symbol : String),
        write_output report totals symbol =
          ("Date,Value," ++ symbol ++ ",Fiat gain")
            :: (report.map fun entry => entry.datetime ++ "," ++ entry.value.normalize.render
                ++ "," ++ entry.conversion.normalize.render ++ ","
                ++ entry.fiat_gain.normalize.render)
            ++ [totals_row totals]) ∧
      ∀ d : Decimal, noTrailingZeros d.normalize.render := by
  constructor
  · intro report totals symbol
    unfold write_output
    rw [write_rows_eq_map]
    rfl
  · exact render_normalize_noTrailingZeros

/-! ## C2: the close price is parsed into binary floating point -/

/-- No IEEE-754 binary64 value equals the exact decimal 0.1: a dyadic
rational `m * 2^e` can never have the factor 5 in its denominator. -/
theorem c2_tenth_not_f64 : ¬ Float64Representable (mkRat 1 10) := by
  rintro ⟨m, e, hm, he1, he2, heq⟩
  have hq : (mkRat 1 10 : ℚ) = 1 / 10 := by
    rw [Rat.mkRat_eq_div]
    norm_num
  rw [hq] at heq
  rcases le_or_lt 0 e with hpos | hneg
  · lift e to ℕ using hpos with E
    rw [zpow_natCast] at heq
    rw [div_eq_iff (by norm_num : (10 : ℚ) ≠ 0)] at heq
    have hZ : (1 : ℤ) = m * 2 ^ E * 10 := by exact_mod_cast heq
    have hdvd : (10 : ℤ) ∣ 1 := ⟨m * 2 ^ E, by linarith⟩
    norm_num at hdvd
  · have heE : e = -((-e).toNat : ℤ) := by omega
    set E := (-e).toNat with hE
    rw [heE, zpow_neg, zpow_natCast, ← div_eq_mul_inv] at heq
    have h2 : ((2 : ℚ)) ^ E ≠ 0 := by positivity
    rw [div_eq_div_iff (by norm_num : (10 : ℚ) ≠ 0) h2] at heq
    have hZ : (1 : ℤ) * 2 ^ E = m * 10 := by exact_mod_cast heq
    have hdvd : (5 : ℤ) ∣ 2 ^ E := ⟨2 * m, by linarith⟩
    have h52 : (5 : ℤ) ∣ 2 := Int.Prime.dvd_pow' (by norm_num) hdvd
    norm_num at h52

/-- C2 (code-bug evidence): the code's close-price field check accepts the
numeric string `0.1`; the exact decimal it denotes is 1/10; a well-formed
candle carrying that close price passes `extract_price_from_payload`; and
no binary64 (`f64`) value — the type `PriceClient::price` parses the price
into and returns — equals 1/10, so the returned price cannot be the exact
base-10 decimal the claim requires. -/
theorem c2_price_is_binary_float :
    isF64String "0.1" = true ∧
      ratOfNumStr "0.1" = some (mkRat 1 10) ∧
      extract_price_from_payload
          [[.int 1677002040000, .str "0.1", .str "0.2", .str "0.05", .str "0.1",
            .str "1", .int 1677002099999, .str "1", .int 1, .str "1", .str "1", .str "0"]]
          1677002040000 = .ok "0.1" ∧
      ¬ Float64Representable (mkRat 1 10) :=
  ⟨by decide, by decide, by decide, c2_tenth_not_f64⟩

end Dotgain

namespace Dotgain

/-- C4 (witness): with one good entry followed by one whose lookup fails,
`process` aborts with the timestamp-tagged error and the pipeline yields no
output lines. -/
theorem c4_abort_on_failure_witness :
    process [⟨"2023-02-21 17:53:28", ⟨5, 0⟩⟩, ⟨"2023-02-22 10:00:00", ⟨3, 0⟩⟩]
        "DOTEUR" stub_price_fn =
      .error [("failed to fetch price for " ++ "2023-02-22 10:00:00"), "lookup failed"] ∧
    main_pipeline [⟨"2023-02-21 17:53:28", ⟨5, 0⟩⟩, ⟨"2023-02-22 10:00:00", ⟨3, 0⟩⟩]
        none none "DOTEUR" stub_price_fn =
      .error [("failed to fetch price for " ++ "2023-02-22 10:00:00"), "lookup failed"] := by
  have h := c4_abort_on_failure [⟨"2023-02-21 17:53:28", ⟨5, 0⟩⟩] []
    ⟨"2023-02-22 10:00:00", ⟨3, 0⟩⟩ "DOTEUR" stub_price_fn ["lookup failed"]
    ⟨2023, 2, 22, 10, 0, 0, false⟩
    (fun e he => by
      rw [List.mem_singleton] at he
      subst he
      exact ⟨⟨2023, 2, 21, 17, 53, 28, false⟩, ⟨2, 0⟩, by decide, by decide⟩)
    (by decide) (by decide)
  exact ⟨h.1, h.2 [⟨"2023-02-21 17:53:28", ⟨5, 0⟩⟩, ⟨"2023-02-22 10:00:00", ⟨3, 0⟩⟩]
    none none (by decide)⟩

/-- C5 (witness): two rows of amounts 10 and 20 at rate 2 give a total
amount whose rational value is the sum of the row amounts. -/
theorem c5_totals_witness :
    (calculate_totals
        [⟨"2023-02-21 17:53:28", ⟨10, 0⟩, ⟨2, 0⟩, ⟨20, 0⟩⟩,
          ⟨"2023-02-21 18:53:28", ⟨20, 0⟩, ⟨2, 0⟩, ⟨40, 0⟩⟩]).total_value.toRat
      = ([⟨"2023-02-21 17:53:28", ⟨10, 0⟩, ⟨2, 0⟩, ⟨20, 0⟩⟩,
          ⟨"2023-02-21 18:53:28", ⟨20, 0⟩, ⟨2, 0⟩, ⟨40, 0⟩⟩].map
            fun (e : OutputEntry) => e.value.toRat).sum :=
  (c5_totals [⟨"2023-02-21 17:53:28", ⟨10, 0⟩⟩, ⟨"2023-02-21 18:53:28", ⟨20, 0⟩⟩]
    "DOTEUR" stub_price_fn
    [⟨"2023-02-21 17:53:28", ⟨10, 0⟩, ⟨2, 0⟩, ⟨20, 0⟩⟩,
      ⟨"2023-02-21 18:53:28", ⟨20, 0⟩, ⟨2, 0⟩, ⟨40, 0⟩⟩] (by decide)).2.1

end Dotgain
